import Mathlib

/-!
Verification of the price-per-kg normalization core.

A shallow embedding, in Lean 4, of the price-normalization core of the
`amazon-price-per-kg-scraper` program (`src/amazon-price-per-kg-scraper.py`),
together with theorems settling the specified properties of its components:
the currency parser (`_nettoyer_prix_total`), the direct unit-price normalizer
(`calculer_prix_au_kg_direct`), the pack-size normalizer
(`calculer_prix_par_format`), the unit-price extractor
(`_extraire_prix_unitaire_amazon`), the per-listing resolution policy
(`_traiter_produit`), the ranking filter (`nettoyer_et_trier_resultats`),
and the page/identifier loop (`extraire_donnees_page` and `main`).

Modelling conventions:
* Python `float` amounts are modelled as exact rationals (`ℚ`).  All numeric
  literals appearing in the program and in its inputs are decimal, so any
  observable arithmetic (comparison with `0`, `* 10`, division by an exact
  decimal mass) is faithfully represented.
* Python strings are modelled as `String` / `List Char`.  Character-class
  predicates (`\d`, `\s`, `str.strip`, `str.lower`) are modelled on their
  ASCII fragment, which is the fragment exercised by every string the
  program manipulates.  Python's `float()` literal syntax is modelled on its
  decimal fragment (optional sign, digits, decimal point, exponent); the
  `inf`/`nan`/underscore/non-ASCII-digit forms are omitted.
* The two regular expressions of the program
  (`(\d+)\s*x\s*(\d+)\s*g` with `re.IGNORECASE`, and
  `([\d.,\s]+)€\s*(?:/|/\s*|/)?\s*(kg|100\s*g)` without flags) are
  backtracking-free on their own alphabets: after a maximal greedy repetition
  the follow-up character can never be an element of the repeated class, so
  `re.search`'s leftmost-match semantics coincides with the deterministic
  position-by-position matchers defined below.
* HTML traversal is out of scope: the embedding starts at the program's own
  sub-selection boundary, i.e. a product block is the optional title text,
  optional link href, optional total-price text, and the ordered list of
  secondary-text span texts that `BeautifulSoup` hands to the pure code.
-/

set_option maxRecDepth 2000

namespace Scraper

/-- ASCII whitespace, the fragment of Python's `str.strip()` / regex `\s`
character class exercised by the program: space, tab, newline, carriage
return, vertical tab, form feed. -/
def estEspace (c : Char) : Bool :=
  c = ' ' || c = '\t' || c = '\n' || c = '\r' || c = '\x0B' || c = '\x0C'

/-- Greedy scan: the longest prefix whose characters satisfy `p`, together
with the remaining suffix (the semantics of a maximal regex repetition and
of the digit scan inside `float()` / `int()`). -/
def balayer (p : Char → Bool) : List Char → List Char × List Char
  | [] => ([], [])
  | c :: reste =>
    if p c then
      let r := balayer p reste
      (c :: r.1, r.2)
    else ([], c :: reste)

/-- Python `str.strip()` (ASCII fragment): drop whitespace from both ends. -/
def rognerEspaces (l : List Char) : List Char :=
  ((l.dropWhile estEspace).reverse.dropWhile estEspace).reverse

/-- Decimal value of a digit string, the semantics of Python `int()` on a
`\d+` capture: fold `10 * acc + digit`. -/
def valeurChiffres (l : List Char) : ℕ :=
  l.foldl (fun acc c => 10 * acc + (c.toNat - 48)) 0

/-- Ten to the `n` in `ℚ`, by plain recursion (kept instance-free so that concrete
parses reduce). -/
def puisNatDix : ℕ → ℚ
  | 0 => 1
  | n + 1 => 10 * puisNatDix n

/-- Ten to the signed exponent `e` in `ℚ`. -/
def puissanceDix : ℤ → ℚ
  | .ofNat n => puisNatDix n
  | .negSucc n => 1 / puisNatDix (n + 1)

/-- Exponent suffix of a Python float literal: either nothing, or
`e`/`E`, an optional sign, and a nonempty digit string consuming the rest
of the input. -/
def lireExposant : List Char → Option ℤ
  | [] => some 0
  | c :: reste =>
    if c = 'e' || c = 'E' then
      match reste with
      | '+' :: chiffres =>
        if chiffres ≠ [] && chiffres.all Char.isDigit then
          some (valeurChiffres chiffres) else none
      | '-' :: chiffres =>
        if chiffres ≠ [] && chiffres.all Char.isDigit then
          some (-(valeurChiffres chiffres : ℤ)) else none
      | chiffres =>
        if chiffres ≠ [] && chiffres.all Char.isDigit then
          some (valeurChiffres chiffres) else none
    else none

/-- Unsigned part of a Python float literal: `digits [. digits] [exp]` with
at least one digit on one side of the point, consuming all the input. -/
def lireNonSigne (l : List Char) : Option ℚ :=
  let e1 := balayer Char.isDigit l
  match e1.2 with
  | '.' :: apres =>
    let e2 := balayer Char.isDigit apres
    if e1.1.isEmpty && e2.1.isEmpty then none
    else
      match lireExposant e2.2 with
      | some expo =>
        some (((valeurChiffres e1.1 : ℚ) +
          (valeurChiffres e2.1 : ℚ) / puisNatDix e2.1.length) * puissanceDix expo)
      | none => none
  | reste =>
    if e1.1.isEmpty then none
    else
      match lireExposant reste with
      | some expo => some ((valeurChiffres e1.1 : ℚ) * puissanceDix expo)
      | none => none

/-- Python `float(s)` on its decimal fragment: strip whitespace, optional
sign, unsigned literal.  `none` models the `ValueError` branch. -/
def lireFlottant (l : List Char) : Option ℚ :=
  let t := rognerEspaces l
  match t with
  | '+' :: reste => lireNonSigne reste
  | '-' :: reste => (lireNonSigne reste).map Neg.neg
  | _ => lireNonSigne t

/-- The normalization chain inside `_nettoyer_prix_total`:
`.replace('€', '').replace('\xa0', '').replace(' ', '').replace(',', '.').strip()`. -/
def normaliserPrix (s : String) : List Char :=
  rognerEspaces
    (((s.data.filter (fun c => c ≠ '€')).filter (fun c => c ≠ '\xA0')
        |>.filter (fun c => c ≠ ' ')).map (fun c => if c = ',' then '.' else c))

/-- Model of `_nettoyer_prix_total` (the Currency Parser): empty string or the `"N/A"`
sentinel give `0.0`; otherwise normalize and parse, with the `ValueError`
handler turning a parse failure into `0.0`. -/
def nettoyerPrixTotal (s : String) : ℚ :=
  if s = "" || s = "N/A" then 0
  else
    match lireFlottant (normaliserPrix s) with
    | some q => q
    | none => 0

/-- Python `str.lower()` (ASCII fragment), via `Char.toLower`. -/
def minuscules (s : String) : String := ⟨s.data.map Char.toLower⟩

/-- The unit normalization `unite.lower().strip()` used by
`calculer_prix_au_kg_direct`. -/
def normaliserUnite (s : String) : String :=
  ⟨rognerEspaces (minuscules s).data⟩

/-- Model of `calculer_prix_au_kg_direct` (the Direct Normalizer). -/
def calculerPrixAuKgDirect (valeur : ℚ) (unite : String) : ℚ :=
  if valeur ≤ 0 then 0
  else
    let u := normaliserUnite unite
    if u = "kg" then valeur
    else if u = "100g" then valeur * 10
    else 0

/-- Match of the pack-size regex `(\d+)\s*x\s*(\d+)\s*g` (with
`re.IGNORECASE`) anchored at the head of the input; returns the two integer
captures.  The pattern is backtracking-free, so the greedy scans below are
exact. -/
def reconnaitreFormatIci (cs : List Char) : Option (ℕ × ℕ) :=
  let e1 := balayer Char.isDigit cs
  if e1.1.isEmpty then none
  else
    match (balayer estEspace e1.2).2 with
    | c :: apresX =>
      if c = 'x' || c = 'X' then
        let e2 := balayer Char.isDigit (balayer estEspace apresX).2
        if e2.1.isEmpty then none
        else
          match (balayer estEspace e2.2).2 with
          | g :: _ => if g = 'g' || g = 'G' then
              some (valeurChiffres e1.1, valeurChiffres e2.1) else none
          | [] => none
      else none
    | [] => none

/-- Model of `re.search` of the pack-size regex: leftmost match over all start
positions. -/
def chercherFormat : List Char → Option (ℕ × ℕ)
  | [] => none
  | c :: reste =>
    match reconnaitreFormatIci (c :: reste) with
    | some r => some r
    | none => chercherFormat reste

/-- Model of `calculer_prix_par_format` (the Pack-Size Normalizer).  The
`try`/`except` of the source is unreachable for this regex (the captures are
nonempty digit strings and the division is guarded), so the model needs no
failure branch beyond the guards themselves. -/
def calculerPrixParFormat (prixTotalStr titre : String) : ℚ :=
  let prixTotal := nettoyerPrixTotal prixTotalStr
  if prixTotal ≤ 0 then 0
  else
    match chercherFormat titre.data with
    | some (n, m) =>
      let poidsTotalKg : ℚ := (n * m : ℕ) / 1000
      if 0 < poidsTotalKg then prixTotal / poidsTotalKg else 0
    | none => 0

/-- The character class `[\d.,\s]` of the unit-price regex. -/
def classeMontant (c : Char) : Bool :=
  c.isDigit || c = '.' || c = ',' || estEspace c

/-- Match of the unit-price regex
`([\d.,\s]+)€\s*(?:/|/\s*|/)?\s*(kg|100\s*g)` (no flags, hence
case-sensitive) anchored at the head of the input; returns the two captured
groups.  The optional-slash alternation collapses to "at most one `/`
between two whitespace runs". -/
def reconnaitrePrixUnitaireIci (cs : List Char) : Option (List Char × List Char) :=
  let e1 := balayer classeMontant cs
  if e1.1.isEmpty then none
  else
    match e1.2 with
    | '€' :: apresEuro =>
      let r1 := (balayer estEspace apresEuro).2
      let r2 := match r1 with
        | '/' :: t => t
        | _ => r1
      match (balayer estEspace r2).2 with
      | 'k' :: 'g' :: _ => some (e1.1, ['k', 'g'])
      | '1' :: '0' :: '0' :: apresCent =>
        let e2 := balayer estEspace apresCent
        match e2.2 with
        | 'g' :: _ => some (e1.1, '1' :: '0' :: '0' :: (e2.1 ++ ['g']))
        | _ => none
      | _ => none
    | _ => none

/-- Model of `re.search` of the unit-price regex: leftmost match over all start
positions. -/
def chercherPrixUnitaire : List Char → Option (List Char × List Char)
  | [] => none
  | c :: reste =>
    match reconnaitrePrixUnitaireIci (c :: reste) with
    | some r => some r
    | none => chercherPrixUnitaire reste

/-- Model of `match.group(1).replace(',', '.').replace(' ', '').strip()` followed by
`float(...)`: the numeric value of the amount capture, `none` on
`ValueError`. -/
def valeurDepuisGroupe (g1 : List Char) : Option ℚ :=
  lireFlottant
    (rognerEspaces ((g1.map (fun c => if c = ',' then '.' else c)).filter
      (fun c => c ≠ ' ')))

/-- Model of `match.group(2).replace(' ', '').strip()`: the unit token of the match. -/
def uniteDepuisGroupe (g2 : List Char) : String :=
  ⟨rognerEspaces (g2.filter (fun c => c ≠ ' '))⟩

/-- The span loop of `_extraire_prix_unitaire_amazon`, threading the
`prix_unitaire_texte` accumulator: a span whose regex match fails to parse
numerically overwrites the raw-text accumulator and the loop continues; a
span that matches and parses returns immediately. -/
def extrairePrixUnitaireBoucle :
    List String → String → ℚ × String × String
  | [], texte => (0, "N/A", texte)
  | s :: reste, texte =>
    match chercherPrixUnitaire s.data with
    | none => extrairePrixUnitaireBoucle reste texte
    | some (g1, g2) =>
      match valeurDepuisGroupe g1 with
      | some v => (v, uniteDepuisGroupe g2, s)
      | none => extrairePrixUnitaireBoucle reste s

/-- Model of `_extraire_prix_unitaire_amazon` (the Unit-Price Extractor), over the
ordered texts of the candidate secondary spans: returns
`(valeur, unité, texte brut)` with initial state `(0.0, "N/A", "N/A")`. -/
def extrairePrixUnitaire (spans : List String) : ℚ × String × String :=
  extrairePrixUnitaireBoucle spans "N/A"

/-- A span fully succeeds when its text matches the unit-price regex and
the amount capture parses numerically (the condition under which the span
loop `break`s). -/
def spanReussit (t : String) : Bool :=
  match chercherPrixUnitaire t.data with
  | none => false
  | some (g1, _) => (valeurDepuisGroupe g1).isSome

/-- The raw-text accumulator left by the span loop when no span fully
succeeds: the text of the last span whose regex matched (even though its
amount failed to parse), or the initial `"N/A"` when none matched. -/
def dernierTexteMatche (spans : List String) : String :=
  spans.foldl
    (fun acc t => if (chercherPrixUnitaire t.data).isSome then t else acc)
    "N/A"

/-- The dataclass `ProduitAmazon`: one listing with its raw fields, the
resolved €/kg (default `0.0`), the resolution-source tag (default `"N/A"`,
the code's "unresolved" tag), and the raw unit-price annotation kept for
audit.  The spec's abstract tag names map to the code's strings:
"unresolved" ↦ `"N/A"`, "direct-from-site" ↦ `"Amazon (Direct)"`,
"derived-from-pack-size" ↦ `"Calculé (NxG)"`. -/
structure ProduitAmazon where
  id_produit : String
  titre : String
  prix_total_str : String
  lien : String
  prix_unitaire_kg : ℚ := 0
  source_prix_kg : String := "N/A"
  prix_unitaire_texte_amazon : String := "N/A"
  prix_unitaire_valeur_amazon : ℚ := 0
  prix_unitaire_unite_amazon : String := "N/A"
  deriving DecidableEq, Repr

/-- Model of `URL_BASE_AMAZON`. -/
def urlBaseAmazon : String := "https://www.amazon.fr"

/-- One product block at the program's sub-selection boundary: the optional
title element text, the optional link element (with its optional `href`
attribute), the optional total-price element text, and the ordered texts of
the secondary spans handed to the Unit-Price Extractor. -/
structure BlocProduit where
  titreElement : Option String
  lienElement : Option (Option String)
  prixTotalElement : Option String
  spansSecondaires : List String
  deriving DecidableEq, Repr

/-- The decision-and-storage step of `_traiter_produit` (the Resolution
Policy), with the Pack-Size Normalizer as an explicit thunk so that
"never consulted" is expressible: when the direct value is positive the
result does not depend on the thunk at all. -/
def resolutionAvec (direct : ℚ) (format : Unit → ℚ) : ℚ × String :=
  if 0 < direct then (direct, "Amazon (Direct)")
  else
    let calcule := format ()
    if 0 < calcule then (calcule, "Calculé (NxG)")
    else (0, "N/A")

/-- Model of `_traiter_produit`: base-field extraction with the source's fallback
defaults, unit-price extraction, then resolution (direct first, pack-size
fallback). -/
def traiterProduit (bloc : BlocProduit) (idPrefix : String) : ProduitAmazon :=
  let titre := match bloc.titreElement with
    | some t => ⟨rognerEspaces t.data⟩
    | none => "Titre non trouvé"
  let lien := match bloc.lienElement with
    | some href => urlBaseAmazon ++ href.getD "Lien non trouvé"
    | none => "Lien non trouvé"
  let prixTotalStr := bloc.prixTotalElement.getD "N/A"
  let extraction := extrairePrixUnitaire bloc.spansSecondaires
  let direct := calculerPrixAuKgDirect extraction.1 extraction.2.1
  let resolution := resolutionAvec direct
    (fun _ => calculerPrixParFormat prixTotalStr titre)
  { id_produit := idPrefix
    titre := titre
    prix_total_str := prixTotalStr
    lien := lien
    prix_unitaire_kg := resolution.1
    source_prix_kg := resolution.2
    prix_unitaire_texte_amazon := extraction.2.2
    prix_unitaire_valeur_amazon := extraction.1
    prix_unitaire_unite_amazon := extraction.2.1 }

/-- Model of `extraire_donnees_page`: identifiers `"R" + (row_num_base + i + 1)` from
the 1-based in-page index (the per-listing `except` of the source is
unreachable in the pure model, so no block is skipped). -/
def extraireDonneesPage (blocs : List BlocProduit) (rowNumBase : ℕ) :
    List ProduitAmazon :=
  blocs.enum.map (fun ia =>
    traiterProduit ia.2 ("R" ++ toString (rowNumBase + ia.1 + 1)))

/-- The page loop of `main`: `total_resultats.extend(resultats_page)` and
`current_row += len(resultats_page)` page after page. -/
def collecteDepuis : List (List BlocProduit) → ℕ → List ProduitAmazon
  | [], _ => []
  | page :: reste, base =>
    let resultatsPage := extraireDonneesPage page base
    resultatsPage ++ collecteDepuis reste (base + resultatsPage.length)

/-- The full multi-page collection of `main`, starting from
`current_row = 0` (the pages are those collected before any page-level
failure stops the loop). -/
def mainCollecte (pages : List (List BlocProduit)) : List ProduitAmazon :=
  collecteDepuis pages 0

/-- Model of `nettoyer_et_trier_resultats` (the Ranking Filter): keep the listings
with positive resolved €/kg, then Python's stable `sorted` keyed on
`prix_unitaire_kg`, modelled by the stable `List.mergeSort`. -/
def nettoyerEtTrierResultats (resultats : List ProduitAmazon) :
    List ProduitAmazon :=
  let resultatsFiltres :=
    resultats.filter (fun r => decide (0 < r.prix_unitaire_kg))
  resultatsFiltres.mergeSort
    (fun a b => decide (a.prix_unitaire_kg ≤ b.prix_unitaire_kg))

/-- A listing with a given identifier and resolved €/kg, for concrete
instantiations. -/
def produitTest (id : String) (q : ℚ) : ProduitAmazon :=
  { id_produit := id, titre := id, prix_total_str := "N/A", lien := "N/A",
    prix_unitaire_kg := q,
    source_prix_kg := if 0 < q then "Amazon (Direct)" else "N/A" }

/-- A product block carrying a direct `€/kg` annotation and a pack-size
title pattern at once (for precedence instantiations). -/
def blocDirect : BlocProduit :=
  ⟨some "A 2x500g", some (some "/dp/A"), some "10 €", ["2€/kg"]⟩

/-- A product block with no extractable data at all. -/
def blocVide : BlocProduit := ⟨none, none, none, []⟩

end Scraper

namespace Scraper

/-- C8: the Direct Normalizer is a pure function with case- and
whitespace-normalized unit comparison (`normaliserUnite`, i.e.
`unite.lower().strip()`): non-positive values give `0.0`; a normalized unit
`"kg"` returns the value unchanged; `"100g"` scales by 10; any other unit
gives `0.0`; and `(20.5, "kg") ↦ 20.5`, `(2.5, "100g") ↦ 25.0`,
`(5.0, "L") ↦ 0.0`, `(0, "kg") ↦ 0.0`. -/
theorem direct_normaliseur_conforme (v : ℚ) (u : String) :
    (v ≤ 0 → calculerPrixAuKgDirect v u = 0) ∧
    (0 < v → normaliserUnite u = "kg" → calculerPrixAuKgDirect v u = v) ∧
    (0 < v → normaliserUnite u = "100g" →
      calculerPrixAuKgDirect v u = v * 10) ∧
    (0 < v → normaliserUnite u ≠ "kg" → normaliserUnite u ≠ "100g" →
      calculerPrixAuKgDirect v u = 0) ∧
    calculerPrixAuKgDirect (41 / 2) "kg" = 41 / 2 ∧
    calculerPrixAuKgDirect (5 / 2) "100g" = 25 ∧
    calculerPrixAuKgDirect 5 "L" = 0 ∧
    calculerPrixAuKgDirect 0 "kg" = 0 := by
  refine ⟨fun h => ?_, fun h hu => ?_, fun h hu => ?_, fun h h1 h2 => ?_,
    by norm_num +decide [calculerPrixAuKgDirect, normaliserUnite,
      minuscules, rognerEspaces, estEspace],
    by norm_num +decide [calculerPrixAuKgDirect, normaliserUnite,
      minuscules, rognerEspaces, estEspace],
    by norm_num +decide [calculerPrixAuKgDirect, normaliserUnite,
      minuscules, rognerEspaces, estEspace],
    by norm_num +decide [calculerPrixAuKgDirect, normaliserUnite,
      minuscules, rognerEspaces, estEspace]⟩
  · simp [calculerPrixAuKgDirect, h]
  · simp [calculerPrixAuKgDirect, not_le.mpr h, hu]
  · simp [calculerPrixAuKgDirect, not_le.mpr h, hu]
  · simp [calculerPrixAuKgDirect, not_le.mpr h, h1, h2]

/-- Witness for `direct_normaliseur_conforme` at `(20.5, " KG ")` (the
normalized comparison also strips and lowercases). -/
theorem direct_normaliseur_conforme_temoin :
    calculerPrixAuKgDirect (41 / 2) " KG " = 41 / 2 :=
  (direct_normaliseur_conforme (41 / 2) " KG ").2.1 (by norm_num) (by decide)

/-- C6: the Currency Parser is total by construction (`nettoyerPrixTotal`
is a Lean function, the `ValueError` handler being its `none` branch), and
it returns `0.0` on the empty string, on the `"N/A"` sentinel, and whenever
the normalized text (currency symbol, non-breaking spaces and spaces
removed, comma turned into a dot, ends stripped) fails to parse as a float. -/
theorem analyseur_devise_total (s : String)
    (h : s = "" ∨ s = "N/A" ∨ lireFlottant (normaliserPrix s) = none) :
    nettoyerPrixTotal s = 0 := by
  rcases h with h | h | h <;> simp [nettoyerPrixTotal, h]

/-- Witness for `analyseur_devise_total` at the unparseable input
`"12,34,56 €"`. -/
theorem analyseur_devise_total_temoin : nettoyerPrixTotal "12,34,56 €" = 0 :=
  analyseur_devise_total "12,34,56 €" (Or.inr (Or.inr (by decide)))

/-- Case analysis of the decision-and-storage step: either it stores a
positive €/kg with a source tag different from the `"N/A"` default, or it
leaves `0` with the `"N/A"` default. -/
theorem resolutionAvec_cas (d : ℚ) (f : Unit → ℚ) :
    (0 < (resolutionAvec d f).1 ∧ (resolutionAvec d f).2 ≠ "N/A") ∨
    ((resolutionAvec d f).1 = 0 ∧ (resolutionAvec d f).2 = "N/A") := by
  unfold resolutionAvec
  by_cases hd : 0 < d
  · left; simp [hd]
  · by_cases hf : 0 < f ()
    · left; simp [hd, hf]
    · right; simp [hd, hf]

/-- C1: per-listing resolution order in `_traiter_produit`.  With
`direct` the Direct Normalizer applied to the Unit-Price Extractor's
output and `calcule` the Pack-Size Normalizer applied to the stored raw
total-price text and title: if `direct > 0` the listing gets `direct` with
the direct-from-site tag (`"Amazon (Direct)"`); otherwise, if
`calcule > 0`, it gets `calcule` with the derived-from-pack-size tag
(`"Calculé (NxG)"`); otherwise €/kg stays `0` with the unresolved tag
(`"N/A"`).  The last conjunct expresses one-shot monotonicity: when
`direct > 0` the outcome is the same for every pack-size thunk, i.e. the
Pack-Size Normalizer is never consulted. -/
theorem politique_resolution_ordre (bloc : BlocProduit) (idPrefix : String)
    (p : ProduitAmazon) (direct calcule : ℚ)
    (hp : p = traiterProduit bloc idPrefix)
    (hd : direct = calculerPrixAuKgDirect
      (extrairePrixUnitaire bloc.spansSecondaires).1
      (extrairePrixUnitaire bloc.spansSecondaires).2.1)
    (hc : calcule = calculerPrixParFormat p.prix_total_str p.titre) :
    (0 < direct → p.prix_unitaire_kg = direct ∧
      p.source_prix_kg = "Amazon (Direct)") ∧
    (¬ 0 < direct → 0 < calcule → p.prix_unitaire_kg = calcule ∧
      p.source_prix_kg = "Calculé (NxG)") ∧
    (¬ 0 < direct → ¬ 0 < calcule → p.prix_unitaire_kg = 0 ∧
      p.source_prix_kg = "N/A") ∧
    (∀ (d : ℚ) (f g : Unit → ℚ), 0 < d →
      resolutionAvec d f = resolutionAvec d g) := by
  subst hp hd
  refine ⟨fun h => ?_, fun h1 h2 => ?_, fun h1 h2 => ?_,
    fun d f g hd0 => ?_⟩
  · constructor <;> simp [traiterProduit, resolutionAvec, h]
  · subst hc
    simp only [traiterProduit] at h2 ⊢
    constructor <;> simp [resolutionAvec, h1, h2]
  · subst hc
    simp only [traiterProduit] at h2 ⊢
    constructor <;> simp [resolutionAvec, h1, h2]
  · simp [resolutionAvec, hd0]

/-- Witness for `politique_resolution_ordre`: `blocDirect` carries both a
valid direct annotation (`"2€/kg"`) and a valid pack-size pattern
(`"2x500g"` with price `"10 €"`); the direct path wins. -/
theorem politique_resolution_ordre_temoin :
    (traiterProduit blocDirect "R1").prix_unitaire_kg = 2 ∧
    (traiterProduit blocDirect "R1").source_prix_kg = "Amazon (Direct)" := by
  have hdirEq : (2 : ℚ) = calculerPrixAuKgDirect
      (extrairePrixUnitaire blocDirect.spansSecondaires).1
      (extrairePrixUnitaire blocDirect.spansSecondaires).2.1 := by
    simp +decide [blocDirect, extrairePrixUnitaire,
      extrairePrixUnitaireBoucle, chercherPrixUnitaire,
      reconnaitrePrixUnitaireIci, balayer, estEspace, classeMontant,
      valeurDepuisGroupe, lireFlottant, lireNonSigne, lireExposant,
      rognerEspaces, valeurChiffres, puissanceDix, puisNatDix,
      uniteDepuisGroupe, calculerPrixAuKgDirect, normaliserUnite,
      minuscules]
  exact (politique_resolution_ordre blocDirect "R1"
      (traiterProduit blocDirect "R1") 2
      (calculerPrixParFormat
        (traiterProduit blocDirect "R1").prix_total_str
        (traiterProduit blocDirect "R1").titre)
      rfl hdirEq rfl).1 (by norm_num)

/-- C2: after resolution a listing satisfies exactly one of the two legal
states — €/kg `> 0` with a non-`"N/A"` source tag, or €/kg `= 0` with the
`"N/A"` tag — and the Ranking Filter only ever returns listings of its
input unchanged, so the invariant persists for the rest of the lifecycle
(the report writer reads but never writes listings). -/
theorem invariant_prix_et_source :
    (∀ (bloc : BlocProduit) (idPrefix : String),
      (0 < (traiterProduit bloc idPrefix).prix_unitaire_kg ∧
        (traiterProduit bloc idPrefix).source_prix_kg ≠ "N/A") ∨
      ((traiterProduit bloc idPrefix).prix_unitaire_kg = 0 ∧
        (traiterProduit bloc idPrefix).source_prix_kg = "N/A")) ∧
    (∀ (l : List ProduitAmazon) (p : ProduitAmazon),
      p ∈ nettoyerEtTrierResultats l → p ∈ l) := by
  constructor
  · intro bloc idPrefix
    simpa only [traiterProduit] using
      resolutionAvec_cas
        (calculerPrixAuKgDirect
          (extrairePrixUnitaire bloc.spansSecondaires).1
          (extrairePrixUnitaire bloc.spansSecondaires).2.1) _
  · intro l p hp
    have h1 : p ∈ l.filter (fun r => decide (0 < r.prix_unitaire_kg)) := by
      simpa only [nettoyerEtTrierResultats, List.mem_mergeSort] using hp
    exact (List.mem_filter.mp h1).1

/-- Witness for `invariant_prix_et_source`: the empty block resolves into a
legal state, and a listing surviving the Ranking Filter is a listing of the
input. -/
theorem invariant_prix_et_source_temoin :
    ((0 < (traiterProduit blocVide "R1").prix_unitaire_kg ∧
        (traiterProduit blocVide "R1").source_prix_kg ≠ "N/A") ∨
      ((traiterProduit blocVide "R1").prix_unitaire_kg = 0 ∧
        (traiterProduit blocVide "R1").source_prix_kg = "N/A")) ∧
    produitTest "A" 8 ∈ [produitTest "A" 8] :=
  ⟨invariant_prix_et_source.1 blocVide "R1",
    invariant_prix_et_source.2 [produitTest "A" 8] (produitTest "A" 8)
      (by
        simp only [nettoyerEtTrierResultats]
        exact List.mem_mergeSort.mpr
          (List.mem_filter.mpr
            ⟨List.mem_cons_self _ _, by with_unfolding_all decide⟩))⟩

/-- The comparison key of the Ranking Filter is transitive. -/
theorem cleTri_trans (a b c : ProduitAmazon)
    (hab : decide (a.prix_unitaire_kg ≤ b.prix_unitaire_kg) = true)
    (hbc : decide (b.prix_unitaire_kg ≤ c.prix_unitaire_kg) = true) :
    decide (a.prix_unitaire_kg ≤ c.prix_unitaire_kg) = true :=
  decide_eq_true ((of_decide_eq_true hab).trans (of_decide_eq_true hbc))

/-- The comparison key of the Ranking Filter is total. -/
theorem cleTri_total (a b : ProduitAmazon) :
    (decide (a.prix_unitaire_kg ≤ b.prix_unitaire_kg) ||
      decide (b.prix_unitaire_kg ≤ a.prix_unitaire_kg)) = true := by
  rcases le_total a.prix_unitaire_kg b.prix_unitaire_kg with h | h <;> simp [h]

/-- C3: on resolved listings (whose €/kg is never negative, by the C2
invariant) the Ranking Filter returns exactly the listings with €/kg ≠ 0,
in ascending €/kg order, stably: restricted to any fixed €/kg value the
output equals the filtered input, so ties keep arrival order.  On the €/kg
values `[0, 12.5, 0, 8, 8]` the output is `[8, 8, 12.5]` with the
first-arriving 8 (listing "D") before the second (listing "E"). -/
theorem filtre_classement_conforme :
    (∀ l : List ProduitAmazon, (∀ p ∈ l, 0 ≤ p.prix_unitaire_kg) →
      (nettoyerEtTrierResultats l).Perm
        (l.filter (fun r => decide (r.prix_unitaire_kg ≠ 0))) ∧
      (nettoyerEtTrierResultats l).Pairwise
        (fun a b => a.prix_unitaire_kg ≤ b.prix_unitaire_kg) ∧
      (∀ q : ℚ,
        (nettoyerEtTrierResultats l).filter
          (fun r => decide (r.prix_unitaire_kg = q)) =
        (l.filter (fun r => decide (r.prix_unitaire_kg ≠ 0))).filter
          (fun r => decide (r.prix_unitaire_kg = q)))) ∧
    nettoyerEtTrierResultats
      [produitTest "A" 0, produitTest "B" (25 / 2), produitTest "C" 0,
        produitTest "D" 8, produitTest "E" 8] =
      [produitTest "D" 8, produitTest "E" 8, produitTest "B" (25 / 2)] := by
  constructor
  · intro l hl
    have hfiltres : l.filter (fun r => decide (0 < r.prix_unitaire_kg)) =
        l.filter (fun r => decide (r.prix_unitaire_kg ≠ 0)) := by
      apply List.filter_congr
      intro p hp
      have h0 := hl p hp
      simp only [decide_eq_decide]
      exact ⟨fun h => ne_of_gt h, fun h => lt_of_le_of_ne h0 (Ne.symm h)⟩
    refine ⟨?_, ?_, ?_⟩
    · simpa only [nettoyerEtTrierResultats, hfiltres] using
        List.mergeSort_perm
          (l.filter (fun r => decide (r.prix_unitaire_kg ≠ 0))) _
    · have hs := List.sorted_mergeSort cleTri_trans cleTri_total
        (l.filter (fun r => decide (0 < r.prix_unitaire_kg)))
      simpa only [nettoyerEtTrierResultats] using
        hs.imp (fun h => of_decide_eq_true h)
    · intro q
      simp only [nettoyerEtTrierResultats, ← hfiltres]
      set F := l.filter (fun r => decide (0 < r.prix_unitaire_kg)) with hF
      set c := F.filter (fun r => decide (r.prix_unitaire_kg = q)) with hc
      have hcmem : ∀ a ∈ c, a.prix_unitaire_kg = q := by
        intro a ha
        simpa using (List.mem_filter.mp ha).2
      have hcpair : c.Pairwise (fun a b =>
          decide (a.prix_unitaire_kg ≤ b.prix_unitaire_kg) = true) := by
        apply List.pairwise_of_forall_mem_list
        intro a ha b hb
        rw [hcmem a ha, hcmem b hb]
        simp
      have hsub : c.Sublist
          (F.mergeSort (fun a b =>
            decide (a.prix_unitaire_kg ≤ b.prix_unitaire_kg))) :=
        List.sublist_mergeSort cleTri_trans cleTri_total hcpair
          (List.filter_sublist F)
      have hsubf : c.Sublist
          ((F.mergeSort (fun a b =>
            decide (a.prix_unitaire_kg ≤ b.prix_unitaire_kg))).filter
              (fun r => decide (r.prix_unitaire_kg = q))) := by
        have := hsub.filter (fun r => decide (r.prix_unitaire_kg = q))
        rwa [List.filter_eq_self.mpr
          (fun a ha => decide_eq_true (hcmem a ha))] at this
      have hlen : c.length =
          ((F.mergeSort (fun a b =>
            decide (a.prix_unitaire_kg ≤ b.prix_unitaire_kg))).filter
              (fun r => decide (r.prix_unitaire_kg = q))).length :=
        ((List.mergeSort_perm F _).filter
          (fun r => decide (r.prix_unitaire_kg = q))).length_eq.symm
      exact (hsubf.eq_of_length hlen).symm
  · norm_num +decide [nettoyerEtTrierResultats, produitTest,
      List.mergeSort, List.splitInTwo, List.splitAt_eq, List.take_succ_cons,
      List.drop_succ_cons, List.take_zero, List.drop_zero, List.merge]

/-- Witness for `filtre_classement_conforme`: its general part applied to
the five-listing example list (all €/kg non-negative). -/
theorem filtre_classement_conforme_temoin :
    (nettoyerEtTrierResultats
      [produitTest "A" 0, produitTest "B" (25 / 2), produitTest "C" 0,
        produitTest "D" 8, produitTest "E" 8]).Perm
      ([produitTest "A" 0, produitTest "B" (25 / 2), produitTest "C" 0,
        produitTest "D" 8, produitTest "E" 8].filter
          (fun r => decide (r.prix_unitaire_kg ≠ 0))) :=
  (filtre_classement_conforme.1
    [produitTest "A" 0, produitTest "B" (25 / 2), produitTest "C" 0,
      produitTest "D" 8, produitTest "E" 8]
    (by
      intro p hp
      fin_cases hp <;> norm_num [produitTest])).1

/-- C10: the Ranking Filter neither creates nor alters listings: its output
is (up to the sort's reordering) exactly the sublist of its input with
positive resolved €/kg, every output listing being one of the input
listings with all fields unchanged; dropped listings are simply absent,
not modified (the model is pure, mirroring that the source only builds a
filtered copy and a sorted copy, never writing to a `ProduitAmazon`). -/
theorem filtre_sans_mutation (l : List ProduitAmazon) :
    (nettoyerEtTrierResultats l).Perm
      (l.filter (fun r => decide (0 < r.prix_unitaire_kg))) ∧
    ∀ p ∈ nettoyerEtTrierResultats l, p ∈ l := by
  constructor
  · simpa only [nettoyerEtTrierResultats] using
      List.mergeSort_perm
        (l.filter (fun r => decide (0 < r.prix_unitaire_kg))) _
  · intro p hp
    have hmem : p ∈ l.filter (fun r => decide (0 < r.prix_unitaire_kg)) :=
      List.mem_mergeSort.mp
        (by simpa only [nettoyerEtTrierResultats] using hp)
    exact (List.mem_filter.mp hmem).1

/-- Witness for `filtre_sans_mutation` on a one-listing list. -/
theorem filtre_sans_mutation_temoin :
    (nettoyerEtTrierResultats [produitTest "X" 5]).Perm
      ([produitTest "X" 5].filter
        (fun r => decide (0 < r.prix_unitaire_kg))) ∧
    produitTest "X" 5 ∈ [produitTest "X" 5] :=
  ⟨(filtre_sans_mutation [produitTest "X" 5]).1,
    (filtre_sans_mutation [produitTest "X" 5]).2 (produitTest "X" 5)
      (by
        simp only [nettoyerEtTrierResultats]
        exact List.mem_mergeSort.mpr
          (List.mem_filter.mpr
            ⟨List.mem_cons_self _ _, by with_unfolding_all decide⟩))⟩

/-- Every character of the prefix returned by a greedy scan satisfies the
scanned class. -/
theorem balayer_prefixe (p : Char → Bool) (l : List Char) :
    ∀ ch ∈ (balayer p l).1, p ch = true := by
  induction l with
  | nil => simp [balayer]
  | cons c r ih =>
    by_cases hp : p c
    · simp only [balayer, hp, if_true]
      intro ch h
      rcases List.mem_cons.mp h with h | h
      · subst h; exact hp
      · exact ih ch h
    · simp [balayer, hp]

/-- Stripping does nothing when both ends are not whitespace. -/
theorem rogner_sans_bords (c d : Char) (l : List Char)
    (hc : estEspace c = false) (hd : estEspace d = false) :
    rognerEspaces (c :: (l ++ [d])) = c :: (l ++ [d]) := by
  unfold rognerEspaces
  rw [List.dropWhile_cons]
  simp only [hc, Bool.false_eq_true, if_false]
  have hrev : (c :: (l ++ [d])).reverse = d :: (l.reverse ++ [c]) := by
    simp
  rw [hrev, List.dropWhile_cons]
  simp only [hd, Bool.false_eq_true, if_false]
  simp

/-- The unit capture of the unit-price regex, at a fixed position, is
either exactly `kg` or `100`, a run of whitespace, and `g`. -/
theorem reconnaitre_forme_unite (cs g1 g2 : List Char)
    (h : reconnaitrePrixUnitaireIci cs = some (g1, g2)) :
    g2 = ['k', 'g'] ∨ ∃ w : List Char, (∀ ch ∈ w, estEspace ch = true) ∧
      g2 = '1' :: '0' :: '0' :: (w ++ ['g']) := by
  simp only [reconnaitrePrixUnitaireIci] at h
  split at h
  · exact absurd h (by simp)
  · split at h
    · split at h
      · injection h with h
        injection h with h1 h2
        subst h2
        exact Or.inl rfl
      · split at h
        · injection h with h
          injection h with h1 h2
          subst h2
          refine Or.inr ⟨_, ?_, rfl⟩
          exact balayer_prefixe estEspace _
        · exact absurd h (by simp)
      · exact absurd h (by simp)
    · exact absurd h (by simp)

/-- The unit capture of the leftmost unit-price match has the same shape. -/
theorem chercher_forme_unite (cs g1 g2 : List Char)
    (h : chercherPrixUnitaire cs = some (g1, g2)) :
    g2 = ['k', 'g'] ∨ ∃ w : List Char, (∀ ch ∈ w, estEspace ch = true) ∧
      g2 = '1' :: '0' :: '0' :: (w ++ ['g']) := by
  induction cs with
  | nil => simp [chercherPrixUnitaire] at h
  | cons c r ih =>
    rw [chercherPrixUnitaire] at h
    cases hr : reconnaitrePrixUnitaireIci (c :: r) with
    | some res =>
      rw [hr] at h
      obtain rfl : res = (g1, g2) := Option.some.inj h
      exact reconnaitre_forme_unite (c :: r) g1 g2 hr
    | none =>
      rw [hr] at h
      exact ih h

/-- When every span fails (no regex match, or a match whose amount does not
parse), the span loop returns value `0`, unit `"N/A"`, and as raw text the
last regex-matched span threaded through the accumulator. -/
theorem boucle_echec (spans : List String) :
    ∀ texte : String, (∀ t ∈ spans, spanReussit t = false) →
    extrairePrixUnitaireBoucle spans texte =
      (0, "N/A", spans.foldl
        (fun acc t =>
          if (chercherPrixUnitaire t.data).isSome then t else acc) texte) := by
  induction spans with
  | nil => intro texte _; simp [extrairePrixUnitaireBoucle]
  | cons s reste ih =>
    intro texte h
    cases hcp : chercherPrixUnitaire s.data with
    | none =>
      rw [List.foldl_cons]
      simp only [hcp, Option.isSome_none, Bool.false_eq_true, if_false]
      simpa [extrairePrixUnitaireBoucle, hcp] using
        ih texte (fun t ht => h t (List.mem_cons_of_mem _ ht))
    | some g =>
      obtain ⟨g1, g2⟩ := g
      have hs := h s (List.mem_cons_self _ _)
      simp only [spanReussit, hcp] at hs
      cases hval : valeurDepuisGroupe g1 with
      | some v => rw [hval] at hs; simp at hs
      | none =>
        rw [List.foldl_cons]
        simp only [hcp, Option.isSome_some, if_true]
        simpa [extrairePrixUnitaireBoucle, hcp, hval] using
          ih s (fun t ht => h t (List.mem_cons_of_mem _ ht))

/-- The unit returned by the span loop is the initial `"N/A"` or the
processed unit capture of some successful match. -/
theorem boucle_unite (spans : List String) :
    ∀ texte : String,
    (extrairePrixUnitaireBoucle spans texte).2.1 = "N/A" ∨
    ∃ cs g1 g2, chercherPrixUnitaire cs = some (g1, g2) ∧
      (extrairePrixUnitaireBoucle spans texte).2.1 = uniteDepuisGroupe g2 := by
  induction spans with
  | nil => intro texte; left; simp [extrairePrixUnitaireBoucle]
  | cons s reste ih =>
    intro texte
    cases hc : chercherPrixUnitaire s.data with
    | none =>
      simpa [extrairePrixUnitaireBoucle, hc] using ih texte
    | some g =>
      obtain ⟨g1, g2⟩ := g
      cases hv : valeurDepuisGroupe g1 with
      | some v =>
        right
        exact ⟨s.data, g1, g2, hc,
          by simp [extrairePrixUnitaireBoucle, hc, hv, uniteDepuisGroupe]⟩
      | none =>
        simpa [extrairePrixUnitaireBoucle, hc, hv] using ih s

/-- The span loop returns the first fully-successful span (regex match
whose amount parses), whatever mix of unmatched and matched-but-unparseable
spans precedes it, for every accumulator state and every tail. -/
theorem boucle_premier_succes (avant : List String) :
    ∀ (texte s : String) (reste : List String) (g1 g2 : List Char) (v : ℚ),
    (∀ t ∈ avant, spanReussit t = false) →
    chercherPrixUnitaire s.data = some (g1, g2) →
    valeurDepuisGroupe g1 = some v →
    extrairePrixUnitaireBoucle (avant ++ s :: reste) texte =
      (v, uniteDepuisGroupe g2, s) := by
  induction avant with
  | nil =>
    intro texte s reste g1 g2 v _ hc hv
    simp [extrairePrixUnitaireBoucle, hc, hv]
  | cons a avant' ih =>
    intro texte s reste g1 g2 v h hc hv
    rw [List.cons_append]
    cases hca : chercherPrixUnitaire a.data with
    | none =>
      simpa [extrairePrixUnitaireBoucle, hca] using
        ih texte s reste g1 g2 v
          (fun t ht => h t (List.mem_cons_of_mem _ ht)) hc hv
    | some g =>
      obtain ⟨h1, h2⟩ := g
      have ha := h a (List.mem_cons_self _ _)
      simp only [spanReussit, hca] at ha
      cases hval : valeurDepuisGroupe h1 with
      | some w => rw [hval] at ha; simp at ha
      | none =>
        simpa [extrairePrixUnitaireBoucle, hca, hval] using
          ih a s reste g1 g2 v
            (fun t ht => h t (List.mem_cons_of_mem _ ht)) hc hv

/-- The unit token `kg`, processed. -/
theorem unite_kg : uniteDepuisGroupe ['k', 'g'] = "kg" := by decide

/-- The unit token `100<ws>g`, processed: spaces are removed, other
whitespace stays. -/
theorem unite_cent (w : List Char) :
    uniteDepuisGroupe ('1' :: '0' :: '0' :: (w ++ ['g'])) =
      ⟨'1' :: '0' :: '0' ::
        ((w.filter (fun ch => decide (ch ≠ ' '))) ++ ['g'])⟩ := by
  unfold uniteDepuisGroupe
  have hfil : ('1' :: '0' :: '0' :: (w ++ ['g'])).filter
      (fun ch => decide (ch ≠ ' ')) =
      '1' :: '0' :: '0' ::
        ((w.filter (fun ch => decide (ch ≠ ' '))) ++ ['g']) := by
    simp +decide [List.filter_append]
  rw [hfil]
  have hr := rogner_sans_bords '1' 'g'
    ('0' :: '0' :: w.filter (fun ch => decide (ch ≠ ' ')))
    (by decide) (by decide)
  exact congrArg String.mk (by simpa using hr)

/-- Counterexample to C5 as stated.  The unit-price regex of the source has
no `re.IGNORECASE` flag, so `"10€/KG"` does not match although its
lowercase twin does; a span whose regex matches but whose amount fails to
parse (`" €/kg"`) leaves its text in the raw-text slot, so the no-success
output is not `(0.0, "N/A", "N/A")`; and a `100<tab>g` unit yields the
token `"100\tg"`, outside `{"kg", "100g", "N/A"}`. -/
theorem extracteur_contre_exemple :
    extrairePrixUnitaire ["10€/KG"] = (0, "N/A", "N/A") ∧
    extrairePrixUnitaire ["10€/kg"] = (10, "kg", "10€/kg") ∧
    extrairePrixUnitaire [" €/kg"] = (0, "N/A", " €/kg") ∧
    (extrairePrixUnitaire ["5€/100\tg"]).2.1 = "100\tg" := by
  refine ⟨?_, ?_, ?_, ?_⟩ <;>
    simp +decide [extrairePrixUnitaire, extrairePrixUnitaireBoucle,
      chercherPrixUnitaire, reconnaitrePrixUnitaireIci, balayer, estEspace,
      classeMontant, valeurDepuisGroupe, lireFlottant, lireNonSigne,
      lireExposant, rognerEspaces, valeurChiffres, puissanceDix, puisNatDix,
      uniteDepuisGroupe]

/-- C5 as the code has it: the extractor scans the candidate spans in
extraction order, matching case-sensitively (lowercase `kg`/`100g`, with
whitespace tolerated after `€`, around the optional slash, and between
`100` and `g`); it returns the first span whose match also parses
numerically and inspects no remaining candidate after it — stated both for
a fully-successful head span and, in general, for a first success preceded
by any spans that fail (whether unmatched or matched with an unparseable
amount), with the tail universally quantified in both; a span with no
match is skipped without effect; when no span fully succeeds the value and
unit are `0.0` and `"N/A"` while the raw text is the last regex-matched
span (or `"N/A"` if none matched); and the returned unit is `"N/A"`,
`"kg"`, or `"100"` + non-space whitespace + `"g"` (in particular
`"100g"`). -/
theorem extracteur_conforme_corrige :
    (∀ (s : String) (reste : List String),
      chercherPrixUnitaire s.data = none →
      extrairePrixUnitaire (s :: reste) = extrairePrixUnitaire reste) ∧
    (∀ (s : String) (reste : List String) (g1 g2 : List Char) (v : ℚ),
      chercherPrixUnitaire s.data = some (g1, g2) →
      valeurDepuisGroupe g1 = some v →
      extrairePrixUnitaire (s :: reste) = (v, uniteDepuisGroupe g2, s)) ∧
    (∀ (avant : List String) (s : String) (reste : List String)
        (g1 g2 : List Char) (v : ℚ),
      (∀ t ∈ avant, spanReussit t = false) →
      chercherPrixUnitaire s.data = some (g1, g2) →
      valeurDepuisGroupe g1 = some v →
      extrairePrixUnitaire (avant ++ s :: reste) =
        (v, uniteDepuisGroupe g2, s)) ∧
    (∀ spans : List String, (∀ t ∈ spans, spanReussit t = false) →
      (extrairePrixUnitaire spans).1 = 0 ∧
      (extrairePrixUnitaire spans).2.1 = "N/A" ∧
      (extrairePrixUnitaire spans).2.2 = dernierTexteMatche spans) ∧
    (∀ spans : List String,
      (extrairePrixUnitaire spans).2.1 = "N/A" ∨
      (extrairePrixUnitaire spans).2.1 = "kg" ∨
      ∃ w : List Char,
        (∀ ch ∈ w, estEspace ch = true ∧ ch ≠ ' ') ∧
        (extrairePrixUnitaire spans).2.1 =
          ⟨'1' :: '0' :: '0' :: (w ++ ['g'])⟩) := by
  refine ⟨fun s reste h => ?_, fun s reste g1 g2 v hc hv => ?_,
    fun avant s reste g1 g2 v h hc hv => ?_,
    fun spans h => ?_, fun spans => ?_⟩
  · simp [extrairePrixUnitaire, extrairePrixUnitaireBoucle, h]
  · simp [extrairePrixUnitaire, extrairePrixUnitaireBoucle, hc, hv,
      uniteDepuisGroupe]
  · exact boucle_premier_succes avant "N/A" s reste g1 g2 v h hc hv
  · have := boucle_echec spans "N/A" h
    rw [extrairePrixUnitaire, this]
    exact ⟨rfl, rfl, rfl⟩
  · rcases boucle_unite spans "N/A" with h | ⟨cs, g1, g2, hc, hu⟩
    · left; exact h
    · rcases chercher_forme_unite cs g1 g2 hc with rfl | ⟨w, hw, rfl⟩
      · right; left
        rw [extrairePrixUnitaire, hu, unite_kg]
      · right; right
        refine ⟨w.filter (fun ch => decide (ch ≠ ' ')), ?_, ?_⟩
        · intro ch hch
          have hm := List.mem_filter.mp hch
          exact ⟨hw ch hm.1, by simpa using hm.2⟩
        · rw [extrairePrixUnitaire, hu, unite_cent]

/-- Witness for `extracteur_conforme_corrige`: the general first-success
conjunct at the span `"2€/kg"`, preceded by `",€/kg"` — a span whose regex
matches but whose amount fails to parse — and followed by a trailing
candidate that is never inspected. -/
theorem extracteur_conforme_corrige_temoin :
    extrairePrixUnitaire [",€/kg", "2€/kg", "9€/kg"] = (2, "kg", "2€/kg") := by
  have hv : valeurDepuisGroupe ['2'] = some 2 := by
    simp +decide [valeurDepuisGroupe, lireFlottant, lireNonSigne,
      lireExposant, balayer, rognerEspaces, estEspace, valeurChiffres,
      puissanceDix, puisNatDix]
  have h := extracteur_conforme_corrige.2.2.1 [",€/kg"] "2€/kg" ["9€/kg"]
    ['2'] ['k', 'g'] 2 (by decide) (by decide) hv
  rw [show ([",€/kg"] ++ "2€/kg" :: ["9€/kg"] : List String) =
    [",€/kg", "2€/kg", "9€/kg"] from rfl] at h
  rw [h, unite_kg]

/-- Ten to the `n` is positive. -/
theorem puisNatDix_pos (n : ℕ) : 0 < puisNatDix n := by
  induction n with
  | zero => norm_num [puisNatDix]
  | succ n ih => rw [puisNatDix]; positivity

/-- Ten to a signed exponent is positive. -/
theorem puissanceDix_pos (e : ℤ) : 0 < puissanceDix e := by
  cases e with
  | ofNat n => exact puisNatDix_pos n
  | negSucc n =>
    rw [puissanceDix]
    exact div_pos one_pos (puisNatDix_pos (n + 1))

/-- The unsigned part of a float literal is non-negative. -/
theorem lireNonSigne_nonneg (l : List Char) (q : ℚ)
    (h : lireNonSigne l = some q) : 0 ≤ q := by
  simp only [lireNonSigne] at h
  split at h
  · split at h
    · exact absurd h (by simp)
    · split at h
      · injection h with h
        subst h
        exact mul_nonneg
          (add_nonneg (Nat.cast_nonneg _)
            (div_nonneg (Nat.cast_nonneg _) (puisNatDix_pos _).le))
          (puissanceDix_pos _).le
      · exact absurd h (by simp)
  · split at h
    · exact absurd h (by simp)
    · split at h
      · injection h with h
        subst h
        exact mul_nonneg (Nat.cast_nonneg _) (puissanceDix_pos _).le
      · exact absurd h (by simp)

/-- A member of the stripped list is a member of the list. -/
theorem mem_rognerEspaces (c : Char) (l : List Char)
    (h : c ∈ rognerEspaces l) : c ∈ l := by
  unfold rognerEspaces at h
  have h1 := List.mem_reverse.mp h
  have h2 := (List.dropWhile_sublist estEspace).subset h1
  have h3 := List.mem_reverse.mp h2
  exact (List.dropWhile_sublist estEspace).subset h3

/-- The normalization chain introduces no minus sign. -/
theorem normaliser_sans_moins (s : String) (h : '-' ∉ s.data) :
    '-' ∉ normaliserPrix s := by
  intro hmem
  have h1 := mem_rognerEspaces _ _ hmem
  obtain ⟨c, hc, hfc⟩ := List.mem_map.mp h1
  have hcm : c = '-' := by
    by_cases hcc : c = ','
    · simp [hcc] at hfc
    · simpa [hcc] using hfc
  subst hcm
  exact h ((List.filter_sublist _).subset
    ((List.filter_sublist _).subset ((List.filter_sublist _).subset hc)))

/-- A parsed float from a text without a minus sign is non-negative. -/
theorem lireFlottant_nonneg (l : List Char) (q : ℚ) (hminus : '-' ∉ l)
    (h : lireFlottant l = some q) : 0 ≤ q := by
  simp only [lireFlottant] at h
  split at h
  · exact lireNonSigne_nonneg _ q h
  · exfalso
    rename_i heq
    exact hminus (mem_rognerEspaces '-' l (heq ▸ List.mem_cons_self _ _))
  · exact lireNonSigne_nonneg _ q h

/-- A digit is not whitespace. -/
theorem chiffre_pas_espace (c : Char) (h : c.isDigit = true) :
    estEspace c = false := by
  cases hb : estEspace c
  · rfl
  · exfalso
    have ht := hb
    simp only [estEspace, Bool.or_eq_true, decide_eq_true_eq] at ht
    rcases ht with ((((h1 | h1) | h1) | h1) | h1) | h1 <;>
      (subst h1; exact absurd h (by decide))

/-- Stripping does nothing on a whitespace-free list. -/
theorem rogner_sans_espaces (l : List Char)
    (h : ∀ ch ∈ l, estEspace ch = false) : rognerEspaces l = l := by
  have hdrop : ∀ m : List Char, (∀ ch ∈ m, estEspace ch = false) →
      m.dropWhile estEspace = m := by
    intro m hm
    cases m with
    | nil => rfl
    | cons c r => rw [List.dropWhile_cons]; simp [hm c (List.mem_cons_self _ _)]
  unfold rognerEspaces
  rw [hdrop l h, hdrop l.reverse (fun ch hch => h ch (List.mem_reverse.mp hch)),
    List.reverse_reverse]

/-- A greedy scan consumes an all-satisfying list entirely. -/
theorem balayer_tout (p : Char → Bool) (l : List Char)
    (h : ∀ ch ∈ l, p ch = true) : balayer p l = (l, []) := by
  induction l with
  | nil => rfl
  | cons c r ih =>
    rw [balayer]
    simp only [h c (List.mem_cons_self _ _), if_true]
    rw [ih (fun ch hch => h ch (List.mem_cons_of_mem _ hch))]

/-- A greedy scan stops exactly at the first non-satisfying character. -/
theorem balayer_jusqua (p : Char → Bool) (d : List Char) (x : Char)
    (r : List Char) (hd : ∀ ch ∈ d, p ch = true) (hx : p x = false) :
    balayer p (d ++ x :: r) = (d, x :: r) := by
  induction d with
  | nil => rw [List.nil_append, balayer]; simp [hx]
  | cons c d' ih =>
    rw [List.cons_append, balayer]
    simp only [hd c (List.mem_cons_self _ _), if_true]
    rw [ih (fun ch hch => hd ch (List.mem_cons_of_mem _ hch))]

/-- Value of the unsigned float parser on `digits.digits`. -/
theorem lireNonSigne_chiffres (d1 d2 : List Char)
    (h1 : ∀ ch ∈ d1, ch.isDigit = true) (h2 : ∀ ch ∈ d2, ch.isDigit = true)
    (hne : d2 ≠ []) :
    lireNonSigne (d1 ++ '.' :: d2) =
      some ((valeurChiffres d1 : ℚ) +
        (valeurChiffres d2 : ℚ) / puisNatDix d2.length) := by
  have he2 : d2.isEmpty = false := by
    cases d2 with
    | nil => exact absurd rfl hne
    | cons c r => rfl
  simp only [lireNonSigne,
    balayer_jusqua Char.isDigit d1 '.' d2 h1 (by decide),
    balayer_tout Char.isDigit d2 h2, he2, Bool.and_false,
    Bool.false_eq_true, if_false, lireExposant]
  rw [show puissanceDix 0 = 1 from rfl, mul_one]

/-- Value of the float parser on `digits.digits` (no sign, no spaces). -/
theorem lireFlottant_chiffres (d1 d2 : List Char)
    (h1 : ∀ ch ∈ d1, ch.isDigit = true) (h2 : ∀ ch ∈ d2, ch.isDigit = true)
    (hne : d2 ≠ []) :
    lireFlottant (d1 ++ '.' :: d2) =
      some ((valeurChiffres d1 : ℚ) +
        (valeurChiffres d2 : ℚ) / puisNatDix d2.length) := by
  have hall : ∀ ch ∈ d1 ++ '.' :: d2, estEspace ch = false := by
    intro ch hch
    rcases List.mem_append.mp hch with hch | hch
    · exact chiffre_pas_espace ch (h1 ch hch)
    · rcases List.mem_cons.mp hch with rfl | hch
      · decide
      · exact chiffre_pas_espace ch (h2 ch hch)
  simp only [lireFlottant, rogner_sans_espaces _ hall]
  split
  · exfalso
    rename_i reste heq
    cases d1 with
    | nil =>
      rw [List.nil_append] at heq
      injection heq with hc _
      exact absurd hc (by decide)
    | cons c d1' =>
      rw [List.cons_append] at heq
      injection heq with hc _
      subst hc
      exact absurd (h1 '+' (List.mem_cons_self _ _)) (by decide)
  · exfalso
    rename_i reste heq
    cases d1 with
    | nil =>
      rw [List.nil_append] at heq
      injection heq with hc _
      exact absurd hc (by decide)
    | cons c d1' =>
      rw [List.cons_append] at heq
      injection heq with hc _
      subst hc
      exact absurd (h1 '-' (List.mem_cons_self _ _)) (by decide)
  · exact lireNonSigne_chiffres d1 d2 h1 h2 hne

/-- Normalization of a locale price string `<amount>,<cents> €`: currency
symbol, spaces and non-breaking spaces disappear, the comma becomes a dot,
and only the digits of the amount remain. -/
theorem normaliser_localisee (A C : List Char)
    (hA : ∀ ch ∈ A, ch.isDigit = true ∨ ch = ' ' ∨ ch = '\xA0')
    (hC : ∀ ch ∈ C, ch.isDigit = true) :
    normaliserPrix ⟨A ++ ',' :: (C ++ [' ', '€'])⟩ =
      A.filter Char.isDigit ++ '.' :: C := by
  have hCe : ∀ ch ∈ C, ch ≠ '€' ∧ ch ≠ '\xA0' ∧ ch ≠ ' ' := by
    intro ch hch
    have hd := hC ch hch
    refine ⟨?_, ?_, ?_⟩ <;> (rintro rfl; exact absurd hd (by decide))
  have hfil :
      (((A ++ ',' :: (C ++ [' ', '€'])).filter
            (fun c => decide (c ≠ '€'))).filter
          (fun c => decide (c ≠ '\xA0'))).filter
        (fun c => decide (c ≠ ' ')) =
      A.filter Char.isDigit ++ ',' :: C := by
    rw [List.filter_filter, List.filter_filter, List.filter_append]
    congr 1
    · apply List.filter_congr
      intro a ha
      rcases hA a ha with hd | rfl | rfl
      · have h1 : a ≠ '€' := by rintro rfl; exact absurd hd (by decide)
        have h2 : a ≠ '\xA0' := by rintro rfl; exact absurd hd (by decide)
        have h3 : a ≠ ' ' := by rintro rfl; exact absurd hd (by decide)
        simp [h1, h2, h3, hd]
      · decide
      · decide
    · rw [List.filter_cons, if_pos (by decide), List.filter_append]
      congr 1
      trans (C ++ ([] : List Char))
      · congr 1
        exact List.filter_eq_self.mpr (fun a ha => by
          obtain ⟨k1, k2, k3⟩ := hCe a ha
          simp [k1, k2, k3])
      · simp
  have hmap : (A.filter Char.isDigit ++ ',' :: C).map
      (fun c => if c = ',' then '.' else c) =
      A.filter Char.isDigit ++ '.' :: C := by
    rw [List.map_append, List.map_cons]
    have hand : (A.filter Char.isDigit).map
        (fun c => if c = ',' then '.' else c) = A.filter Char.isDigit := by
      have := List.map_congr_left (l := A.filter Char.isDigit)
        (g := id) (f := fun c => if c = ',' then '.' else c) ?_
      · simpa using this
      · intro a ha
        have hd := (List.mem_filter.mp ha).2
        have : a ≠ ',' := by rintro rfl; exact absurd hd (by decide)
        simp [this]
    have hCmap : C.map (fun c => if c = ',' then '.' else c) = C := by
      have := List.map_congr_left (l := C) (g := id)
        (f := fun c => if c = ',' then '.' else c) ?_
      · simpa using this
      · intro a ha
        have hd := hC a ha
        have : a ≠ ',' := by rintro rfl; exact absurd hd (by decide)
        simp [this]
    rw [hand, hCmap]
    simp
  have hws : ∀ ch ∈ A.filter Char.isDigit ++ '.' :: C,
      estEspace ch = false := by
    intro ch hch
    rcases List.mem_append.mp hch with hch | hch
    · exact chiffre_pas_espace ch (List.mem_filter.mp hch).2
    · rcases List.mem_cons.mp hch with rfl | hch
      · decide
      · exact chiffre_pas_espace ch (hC ch hch)
  show rognerEspaces _ = _
  rw [show (⟨A ++ ',' :: (C ++ [' ', '€'])⟩ : String).data =
      A ++ ',' :: (C ++ [' ', '€']) from rfl]
  rw [hfil, hmap]
  exact rogner_sans_espaces _ hws

/-- Counterexample to C7's non-negativity as stated: the parser strips the
currency symbol and spaces but keeps a leading minus sign, so
`"-5,00 €"` parses to a negative amount. -/
theorem analyseur_devise_contre_exemple : nettoyerPrixTotal "-5,00 €" < 0 := by
  simp +decide [nettoyerPrixTotal, normaliserPrix, lireFlottant,
    lireNonSigne, lireExposant, balayer, rognerEspaces, estEspace,
    valeurChiffres, puissanceDix, puisNatDix]

/-- C7 as the code has it: the Currency Parser's output is non-negative
for every input containing no `'-'`; and on every locale price string
`<amount>,<cents> €` (amount made of digits with space or non-breaking
space groupings, cents a nonempty digit string) it returns the amount's
digits as integer part and the cents as fractional part; in particular
`"19,99 €" ↦ 19.99` and `"1 234,50 €" ↦ 1234.50`. -/
theorem analyseur_devise_valeurs :
    (∀ s : String, '-' ∉ s.data → 0 ≤ nettoyerPrixTotal s) ∧
    (∀ n : ℕ, puisNatDix n = 10 ^ n) ∧
    (∀ A C : List Char,
      (∀ ch ∈ A, ch.isDigit = true ∨ ch = ' ' ∨ ch = '\xA0') →
      C ≠ [] → (∀ ch ∈ C, ch.isDigit = true) →
      nettoyerPrixTotal ⟨A ++ ',' :: (C ++ [' ', '€'])⟩ =
        (valeurChiffres (A.filter Char.isDigit) : ℚ) +
          (valeurChiffres C : ℚ) / puisNatDix C.length) ∧
    nettoyerPrixTotal "19,99 €" = 1999 / 100 ∧
    nettoyerPrixTotal "1 234,50 €" = 2469 / 2 := by
  refine ⟨fun s hm => ?_, fun n => ?_, fun A C hA hne hC => ?_, ?_, ?_⟩
  · unfold nettoyerPrixTotal
    split
    · exact le_refl 0
    · split
      · rename_i q heq
        exact lireFlottant_nonneg _ q (normaliser_sans_moins s hm) heq
      · exact le_refl 0
  · induction n with
    | zero => simp [puisNatDix]
    | succ n ih => rw [puisNatDix, ih, pow_succ]; ring
  · have hs1 : (⟨A ++ ',' :: (C ++ [' ', '€'])⟩ : String) ≠ "" := by
      intro hq
      have hdata := congrArg String.data hq
      simp at hdata
    have hs2 : (⟨A ++ ',' :: (C ++ [' ', '€'])⟩ : String) ≠ "N/A" := by
      intro hq
      have hdata := congrArg String.data hq
      have hmem : '€' ∈ "N/A".data := hdata ▸ (by simp)
      exact absurd hmem (by decide)
    have hnorm := normaliser_localisee A C hA hC
    have hflot := lireFlottant_chiffres (A.filter Char.isDigit) C
      (fun ch hch => (List.mem_filter.mp hch).2) hC hne
    rw [nettoyerPrixTotal, if_neg (by simp [hs1, hs2]), hnorm, hflot]
  · simp +decide [nettoyerPrixTotal, normaliserPrix, lireFlottant,
      lireNonSigne, lireExposant, balayer, rognerEspaces, estEspace,
      valeurChiffres, puissanceDix, puisNatDix]
    norm_num
  · simp +decide [nettoyerPrixTotal, normaliserPrix, lireFlottant,
      lireNonSigne, lireExposant, balayer, rognerEspaces, estEspace,
      valeurChiffres, puissanceDix, puisNatDix]
    norm_num

/-- Witness for `analyseur_devise_valeurs`: non-negativity at `"19,99 €"`
and the locale-string value at `"1,5 €"`. -/
theorem analyseur_devise_valeurs_temoin :
    0 ≤ nettoyerPrixTotal "19,99 €" ∧
    nettoyerPrixTotal ⟨['1'] ++ ',' :: (['5'] ++ [' ', '€'])⟩ =
      (valeurChiffres (['1'].filter Char.isDigit) : ℚ) +
        (valeurChiffres ['5'] : ℚ) / puisNatDix ['5'].length :=
  ⟨analyseur_devise_valeurs.1 "19,99 €" (by decide),
    analyseur_devise_valeurs.2.2.1 ['1'] ['5'] (by decide) (by decide)
      (by decide)⟩

/-- A page yields one listing per product block (the per-listing `except`
of the source is unreachable in the pure model). -/
theorem extraireDonneesPage_longueur (blocs : List BlocProduit) (base : ℕ) :
    (extraireDonneesPage blocs base).length = blocs.length := by
  simp [extraireDonneesPage]

/-- The listing built from the block at in-page index `j` carries the
identifier `"R" + (base + j + 1)`. -/
theorem extraireDonneesPage_getElem (blocs : List BlocProduit) (base j : ℕ)
    (hj : j < blocs.length) :
    (extraireDonneesPage blocs base)[j]? =
      some (traiterProduit (blocs.get ⟨j, hj⟩)
        ("R" ++ toString (base + j + 1))) := by
  rw [extraireDonneesPage, List.getElem?_map, List.getElem?_enum,
    List.getElem?_eq_getElem hj]
  rfl

/-- The page loop collects exactly the sum of the page sizes, i.e. the
running count `current_row` equals the number of collected listings. -/
theorem collecteDepuis_longueur (pages : List (List BlocProduit)) :
    ∀ base : ℕ, (collecteDepuis pages base).length =
      (pages.map List.length).sum := by
  induction pages with
  | nil => intro base; rfl
  | cons page reste ih =>
    intro base
    rw [collecteDepuis]
    simp [extraireDonneesPage_longueur, ih]

/-- Position and identifier of every collected listing of the page loop:
the listing extracted from in-page index `j` of page `k` sits at global
position (count of earlier pages' listings) + `j` and carries identifier
`"R" + (base + that count + j + 1)`. -/
theorem collecteDepuis_getElem (pages : List (List BlocProduit)) :
    ∀ (base k j : ℕ) (hk : k < pages.length)
      (hj : j < (pages.get ⟨k, hk⟩).length),
    (collecteDepuis pages base)[(((pages.take k).map List.length).sum + j)]? =
      some (traiterProduit ((pages.get ⟨k, hk⟩).get ⟨j, hj⟩)
        ("R" ++ toString
          (base + ((pages.take k).map List.length).sum + j + 1))) := by
  induction pages with
  | nil =>
    intro base k j hk hj
    exact absurd hk (Nat.not_lt_zero k)
  | cons page reste ih =>
    intro base k j hk hj
    cases k with
    | zero =>
      simp only [List.take_zero, List.map_nil, List.sum_nil, Nat.zero_add,
        Nat.add_zero]
      rw [collecteDepuis, List.getElem?_append,
        if_pos (by rw [extraireDonneesPage_longueur]; exact hj)]
      exact extraireDonneesPage_getElem page base j hj
    | succ m =>
      have hm : m < reste.length := Nat.lt_of_succ_lt_succ hk
      simp only [List.take_succ_cons, List.map_cons, List.sum_cons]
      rw [collecteDepuis, List.getElem?_append_right
        (by rw [extraireDonneesPage_longueur]; omega),
        extraireDonneesPage_longueur]
      have harith : page.length + ((reste.take m).map List.length).sum + j -
          page.length = ((reste.take m).map List.length).sum + j := by omega
      rw [harith]
      have harg : base + (page.length + ((reste.take m).map List.length).sum)
          + j + 1 =
          (base + page.length) + ((reste.take m).map List.length).sum + j
            + 1 := by omega
      rw [harg]
      exact ih (base + page.length) m j hm hj

/-- C9: in the multi-page run, the listing extracted from in-page position
`j` (0-based) of page `k` is collected at global position
`(listings from earlier pages) + j` and its identifier is
`"R" + (that running count + j + 1)`, i.e. `"R"` followed by the running
count from all earlier pages plus the 1-based in-page index; the prefix
count really is the number of listings collected from the earlier pages;
and the identifier is the one assigned at extraction time
(`traiterProduit` stores its `idPrefix` argument as `id_produit`,
unchanged thereafter — the collected record is the extracted record). -/
theorem identifiants_conformes (pages : List (List BlocProduit)) (k j : ℕ)
    (hk : k < pages.length) (hj : j < (pages.get ⟨k, hk⟩).length) :
    (mainCollecte pages)[(((pages.take k).map List.length).sum + j)]? =
      some (traiterProduit ((pages.get ⟨k, hk⟩).get ⟨j, hj⟩)
        ("R" ++ toString (((pages.take k).map List.length).sum + j + 1))) ∧
    (mainCollecte (pages.take k)).length =
      ((pages.take k).map List.length).sum ∧
    ∀ (bloc : BlocProduit) (idPrefix : String),
      (traiterProduit bloc idPrefix).id_produit = idPrefix := by
  refine ⟨?_, collecteDepuis_longueur (pages.take k) 0,
    fun bloc idPrefix => rfl⟩
  have h := collecteDepuis_getElem pages 0 k j hk hj
  have harg : 0 + ((pages.take k).map List.length).sum + j + 1 =
      ((pages.take k).map List.length).sum + j + 1 := by omega
  rw [harg] at h
  exact h

/-- Witness for `identifiants_conformes`: two pages of one and two blocks;
the second listing of the second page sits at global position 2 and gets
identifier `"R3"`. -/
theorem identifiants_conformes_temoin :
    (mainCollecte
      [[blocVide], [blocVide, blocDirect]])[((([[blocVide],
        [blocVide, blocDirect]].take 1).map List.length).sum + 1)]? =
      some (traiterProduit
        (([[blocVide], [blocVide, blocDirect]].get ⟨1, by norm_num⟩).get
          ⟨1, by decide⟩)
        ("R" ++ toString ((([[blocVide],
          [blocVide, blocDirect]].take 1).map List.length).sum + 1 + 1))) :=
  (identifiants_conformes [[blocVide], [blocVide, blocDirect]] 1 1
    (by norm_num) (by decide)).1

end Scraper
